import Mathlib

/-
  Verification of the trading data loader and backtest simulator.

  The definitions below are a shallow embedding of the Python sources:
    - scripts/backtest.py : TREND_POSITION, TradingSystem, backtest_day
    - scripts/dataset.py  : TradingDataset (index mapping, size check,
                            window construction), RowGroupSampler
  Machine floats are modelled by rationals; numpy arrays by lists or by
  total functions on indices (all source indexing is in range); Python
  exceptions by Option (none = the operation raises).
-/

namespace Trading

/-! The trading state machine of scripts/backtest.py. -/

/-- The dictionary `TREND_POSITION = \x7b0: 1, 1: 1, 2: 1, 3: 0, 4: -1, 5: -1, 6: -1\x7d`;
lookup yields `none` (a KeyError) outside the seven keys. -/
def TREND_POSITION : ℕ → Option ℤ
  | 0 => some 1
  | 1 => some 1
  | 2 => some 1
  | 3 => some 0
  | 4 => some (-1)
  | 5 => some (-1)
  | 6 => some (-1)
  | _ => none

/-- The mutable state of `TradingSystem`: the entry threshold, the current
position and the currently committed trend class (`None` initially). -/
structure TSState where
  entry_threshold : ℚ
  position : ℤ
  current_trend : Option ℕ
deriving DecidableEq, Repr

/-- Constructor `TradingSystem.__init__`: position 0, no committed trend. -/
def TSState.init (entry_threshold : ℚ) : TSState :=
  { entry_threshold := entry_threshold, position := 0, current_trend := none }

/-- The maximum `probs.max()` of a nonempty list (numpy raises on an empty one,
which the caller `update` models separately). -/
def npMax : List ℚ → ℚ
  | [] => 0
  | x :: xs => xs.foldl max x

/-- The index `probs.argmax()` of the first occurrence of the maximum. -/
def npArgmax (l : List ℚ) : ℕ :=
  l.findIdx (fun x => decide (x = npMax l))

/-- Method `TradingSystem.update`: commit `argmax` and map it to a position when the
maximum probability reaches the threshold and the class is new; otherwise keep
the state; returns the (possibly updated) position.  `none` models the numpy
error on an empty vector and the KeyError on a class outside 0..6. -/
def update (s : TSState) (probs : List ℚ) : Option (TSState × ℤ) :=
  if probs = [] then none
  else if s.entry_threshold ≤ npMax probs ∧ some (npArgmax probs) ≠ s.current_trend then
    match TREND_POSITION (npArgmax probs) with
    | some p =>
      some ({ s with current_trend := some (npArgmax probs), position := p }, p)
    | none => none
  else some (s, s.position)

/-! The per-day backtest loop of scripts/backtest.py. -/

/-- The trade count `np.sum(np.abs(np.diff(positions)) > 0)`: the number of
adjacent pairs of the position sequence that differ. -/
def numTrades (positions : List ℤ) : ℕ :=
  ((positions.zip positions.tail).filter (fun q => decide (q.2 ≠ q.1))).length

/-- The per-day result dictionary returned by `backtest_day`. -/
structure Report where
  prices : List ℚ
  positions : List ℤ
  pnls : List ℚ
  final_pnl : ℚ
  num_trades : ℕ
deriving DecidableEq, Repr

/-- The body of the `for pos in range(len(prices))` loop of `backtest_day`,
iterated over the remaining list of positions `idxs`.  The model output at
step `pos` is `model pos`; `cum` is `cumulative_pnl`.  Returns the emitted
positions, the pnl trace, and the final cumulative pnl. -/
def btLoop (prices : List ℚ) (model : ℕ → List ℚ) (s : TSState) (cum : ℚ) :
    List ℕ → Option (List ℤ × List ℚ × ℚ)
  | [] => some ([], [], cum)
  | pos :: rest =>
    match update s (model pos) with
    | none => none
    | some (s', p) =>
      let cum' := if pos + 1 < prices.length then
          cum + (p : ℚ) * (prices.getD (pos + 1) 0 - prices.getD pos 0)
        else cum
      match btLoop prices model s' cum' rest with
      | none => none
      | some (ps, pnls, fin) => some (p :: ps, cum' :: pnls, fin)

/-- Function `backtest_day`: a fresh `TradingSystem(entry_threshold=0.90)`, one update
per intra-day position, pnl accrued from the decided position times the close
change to the next position. -/
def backtest_day (prices : List ℚ) (model : ℕ → List ℚ) : Option Report :=
  match btLoop prices model (TSState.init (9/10)) 0 (List.range prices.length) with
  | none => none
  | some (positions, pnls, fin) =>
    some { prices := prices, positions := positions, pnls := pnls,
           final_pnl := fin, num_trades := numTrades positions }

/-! Index bookkeeping of TradingDataset in scripts/dataset.py. -/

/-- The fields of `TradingDataset` relevant to indexing: the constructor
arguments plus the parquet metadata row counts. -/
structure DatasetParams where
  num_row_groups : ℕ
  window_size : ℕ
  stride : ℕ
  start_index : ℕ
  num_rows : ℕ
deriving DecidableEq, Repr

def bars_per_day : ℕ := 23400

def windows_per_day (p : DatasetParams) : ℕ :=
  (bars_per_day - p.start_index) / p.stride

/-- Method `__len__`. -/
def datasetLen (p : DatasetParams) : ℕ :=
  p.num_row_groups * windows_per_day p

/-- Constructor `TradingDataset.__init__`: the single size assertion
`actual_rows == num_row_groups * bars_per_day`, checked at construction;
`none` models the AssertionError. -/
def mkTradingDataset (num_row_groups num_rows window_size stride start_index : ℕ) :
    Option DatasetParams :=
  if num_rows = num_row_groups * bars_per_day then
    some { num_row_groups := num_row_groups, window_size := window_size,
           stride := stride, start_index := start_index, num_rows := num_rows }
  else none

/-- Method `_get_row_group_and_offset`: global index to (row_group, position); the
source performs no bounds check here. -/
def getRowGroupAndOffset (p : DatasetParams) (idx : ℕ) : ℕ × ℕ :=
  (idx / windows_per_day p, p.start_index + (idx % windows_per_day p) * p.stride)

/-! Window construction in get_features_for of scripts/dataset.py. -/

/-- The indices `np.arange(stride - 1, pos + 1, stride)`: the completed-bar boundary
indices `stride-1, 2*stride-1, ...` up to `pos`, in closed form. -/
def barIndices (stride pos : ℕ) : List ℕ :=
  (List.range ((pos + 1) / stride)).map (fun k => stride * (k + 1) - 1)

/-- The synthetic tail: `if len(ix) == 0 or ix[-1] != pos: ix = np.append(ix, pos)`. -/
def allBarIndices (stride pos : ℕ) : List ℕ :=
  let b := barIndices stride pos
  if b.getLast? = some pos then b else b ++ [pos]

/-- Right-align the values at the last `min (length, maxBars)` indices into a
zero-initialized `maxBars`-row buffer of (high, low, close) triples. -/
def windowFrom (maxBars : ℕ) (idxs : List ℕ) (hi lo cl : ℕ → ℚ) :
    List (ℚ × ℚ × ℚ) :=
  let n := min idxs.length maxBars
  List.replicate (maxBars - n) (0, 0, 0) ++
    (idxs.drop (idxs.length - n)).map (fun i => (hi i, lo i, cl i))

/-- The `features_1m` buffer of `get_features_for`: stride 60, 60 slots. -/
def features_1m (hi lo cl : ℕ → ℚ) (pos : ℕ) : List (ℚ × ℚ × ℚ) :=
  windowFrom 60 (allBarIndices 60 pos) hi lo cl

/-- The `features_5m` buffer of `get_features_for`: stride 300, 78 slots. -/
def features_5m (hi lo cl : ℕ → ℚ) (pos : ℕ) : List (ℚ × ℚ × ℚ) :=
  windowFrom 78 (allBarIndices 300 pos) hi lo cl

/-- Modelled from the spec's wording: collect ALL boundary indices `≤ pos`
(those `i` with `(i+1) % stride = 0`) by filtering, rather than by the
closed-form `arange` of the source. -/
def specBoundaries (stride pos : ℕ) : List ℕ :=
  (List.range (pos + 1)).filter (fun i => decide ((i + 1) % stride = 0))

/-- Modelled from the spec's wording: append `pos` as the synthetic current
partial bar exactly when `pos` is not itself a completed-bar boundary. -/
def specAllIndices (stride pos : ℕ) : List ℕ :=
  if (pos + 1) % stride = 0 then specBoundaries stride pos
  else specBoundaries stride pos ++ [pos]

/-- Modelled from the spec's wording: the generic
strided-boundary-with-synthetic-tail window. -/
def specWindow (stride maxBars : ℕ) (hi lo cl : ℕ → ℚ) (pos : ℕ) :
    List (ℚ × ℚ × ℚ) :=
  windowFrom maxBars (specAllIndices stride pos) hi lo cl

/-! The RowGroupSampler of scripts/dataset.py. -/

/-- The generator body of `RowGroupSampler.__iter__` for a given (possibly
shuffled) list of row groups. -/
def rowGroupSamplerIter (row_groups : List ℕ) (wpd : ℕ) : List ℕ :=
  row_groups.flatMap (fun rg => (List.range wpd).map (fun offset => rg * wpd + offset))

/-- Method `RowGroupSampler.__iter__` with `shuffle=False`: row groups in their
original order. -/
def rowGroupSamplerNoShuffle (num_row_groups wpd : ℕ) : List ℕ :=
  rowGroupSamplerIter (List.range num_row_groups) wpd

/-! Statement-level definitions and concrete test inputs. -/

/-- The simulator invariant: either nothing is committed yet and the position
is the initial flat 0, or a trend class is committed and the position is its
image under `TREND_POSITION`. -/
def Inv (s : TSState) : Prop :=
  (s.current_trend = none ∧ s.position = 0) ∨
  (∃ c, s.current_trend = some c ∧ TREND_POSITION c = some s.position)

/-- Modelled from the spec's wording: the pnl accrued over the interval from
`i` to `i+1` is the position decided at `i` times the close change, and the
final position of a day accrues nothing. -/
def specStepPnl (prices : List ℚ) (p : ℤ) (i : ℕ) : ℚ :=
  if i + 1 < prices.length then (p : ℚ) * (prices.getD (i + 1) 0 - prices.getD i 0)
  else 0

/-- A probability vector with maximum 0.95 at class 0. -/
def cVec95 : List ℚ := [19/20, 1/20, 0, 0, 0, 0, 0]

/-- A probability vector with maximum 0.92 at class 4. -/
def cVec92 : List ℚ := [0, 0, 0, 0, 23/25, 2/25, 0]

/-- The model of the hysteresis scenario: class 0 at 0.95 twice, then class 4
at 0.92. -/
def cModelB (pos : ℕ) : List ℚ := if pos < 2 then cVec95 else cVec92

/-- A three-step day of prices for the hysteresis scenario. -/
def cPrices3 : List ℚ := [100, 101, 99]

/-- The result of the hysteresis scenario. -/
def cReportB : Report :=
  { prices := cPrices3, positions := [1, 1, -1], pnls := [1, -1, -1],
    final_pnl := -1, num_trades := 1 }

/-- A model driving the pnl scenario to positions 1, 1, -1, -1. -/
def cModelC (pos : ℕ) : List ℚ :=
  if pos < 2 then [1, 0, 0, 0, 0, 0, 0] else [0, 0, 0, 0, 1, 0, 0]

/-- The fixed prices of the pnl determinism scenario. -/
def cPrices4 : List ℚ := [100, 101, 99, 99]

/-- The result of the pnl determinism scenario. -/
def cReportC : Report :=
  { prices := cPrices4, positions := [1, 1, -1, -1], pnls := [1, -1, -1, -1],
    final_pnl := -1, num_trades := 1 }

/-- A dataset of one day, stride 1, no start offset. -/
def pOne : DatasetParams :=
  { num_row_groups := 1, window_size := 60, stride := 1, start_index := 0,
    num_rows := 23400 }

/-- A dataset of two days with stride 3 and start offset 5. -/
def pTwo : DatasetParams :=
  { num_row_groups := 2, window_size := 60, stride := 3, start_index := 5,
    num_rows := 46800 }

/-! Helper lemmas about the simulator. -/

theorem foldl_max_mem (xs : List ℚ) : ∀ x : ℚ, xs.foldl max x ∈ x :: xs := by
  induction xs with
  | nil => intro x; simp
  | cons y ys ih =>
    intro x
    simp only [List.foldl_cons]
    have h := ih (max x y)
    rcases List.mem_cons.1 h with h1 | h1
    · rcases max_choice x y with hm | hm
      · rw [h1, hm]; exact List.mem_cons_self _ _
      · rw [h1, hm]; exact List.mem_cons_of_mem _ (List.mem_cons_self _ _)
    · exact List.mem_cons_of_mem _ (List.mem_cons_of_mem _ h1)

theorem npMax_mem (l : List ℚ) (h : l ≠ []) : npMax l ∈ l := by
  match l with
  | [] => exact absurd rfl h
  | x :: xs => exact foldl_max_mem xs x

theorem npArgmax_lt_length (l : List ℚ) (h : l ≠ []) : npArgmax l < l.length := by
  apply List.findIdx_lt_length_of_exists
  exact ⟨npMax l, npMax_mem l h, by simp⟩

theorem TREND_POSITION_eq_of_lt {a : ℕ} (h : a < 7) :
    TREND_POSITION a = some (if a ≤ 2 then 1 else if a = 3 then 0 else -1) := by
  interval_cases a <;> decide

theorem TREND_POSITION_mem {c : ℕ} {p : ℤ} (h : TREND_POSITION c = some p) :
    p = -1 ∨ p = 0 ∨ p = 1 := by
  unfold TREND_POSITION at h
  split at h <;> simp_all

theorem pos_of_Inv {s : TSState} (h : Inv s) :
    s.position = -1 ∨ s.position = 0 ∨ s.position = 1 := by
  rcases h with ⟨-, h0⟩ | ⟨c, -, hc⟩
  · simp [h0]
  · exact TREND_POSITION_mem hc

theorem update_inv {s : TSState} {probs : List ℚ} {s' : TSState} {p : ℤ}
    (hs : Inv s) (h : update s probs = some (s', p)) : Inv s' ∧ p = s'.position := by
  unfold update at h
  by_cases hne : probs = []
  · rw [if_pos hne] at h; exact absurd h (by simp)
  · rw [if_neg hne] at h
    by_cases hf : s.entry_threshold ≤ npMax probs ∧ some (npArgmax probs) ≠ s.current_trend
    · rw [if_pos hf] at h
      cases htp : TREND_POSITION (npArgmax probs) with
      | none => rw [htp] at h; exact absurd h (by simp)
      | some q =>
        rw [htp] at h
        simp only [Option.some.injEq, Prod.mk.injEq] at h
        obtain ⟨h1, h2⟩ := h
        subst h1; subst h2
        exact ⟨Or.inr ⟨npArgmax probs, rfl, htp⟩, rfl⟩
    · rw [if_neg hf] at h
      simp only [Option.some.injEq, Prod.mk.injEq] at h
      obtain ⟨h1, h2⟩ := h
      subst h1; subst h2
      exact ⟨hs, rfl⟩

theorem btLoop_pnl (prices : List ℚ) (model : ℕ → List ℚ) :
    ∀ (idxs : List ℕ) (s : TSState) (cum : ℚ) (ps : List ℤ) (pnls : List ℚ)
      (fin : ℚ),
      btLoop prices model s cum idxs = some (ps, pnls, fin) →
      ps.length = idxs.length ∧
      fin = cum + (List.zipWith (specStepPnl prices) ps idxs).sum := by
  intro idxs
  induction idxs with
  | nil =>
    intro s cum ps pnls fin h
    simp only [btLoop, Option.some.injEq, Prod.mk.injEq] at h
    obtain ⟨h1, h2, h3⟩ := h
    subst h1; subst h3
    simp
  | cons i rest ih =>
    intro s cum ps pnls fin h
    simp only [btLoop] at h
    split at h
    · exact absurd h (by simp)
    · rename_i s' p hu
      split at h
      · exact absurd h (by simp)
      · rename_i ps1 pnls1 fin1 hb
        simp only [Option.some.injEq, Prod.mk.injEq] at h
        obtain ⟨h1, h2, h3⟩ := h
        subst h1; subst h2; subst h3
        obtain ⟨hlen, hsum⟩ := ih s' _ ps1 pnls1 fin1 hb
        refine ⟨by simp [hlen], ?_⟩
        rw [hsum]
        by_cases hg : i + 1 < prices.length
        · simp only [specStepPnl, hg, if_pos, List.zipWith_cons_cons, List.sum_cons]
          ring
        · simp [specStepPnl, hg]

theorem btLoop_mem (prices : List ℚ) (model : ℕ → List ℚ) :
    ∀ (idxs : List ℕ) (s : TSState) (cum : ℚ) (ps : List ℤ) (pnls : List ℚ)
      (fin : ℚ),
      Inv s → btLoop prices model s cum idxs = some (ps, pnls, fin) →
      ∀ q ∈ ps, q = -1 ∨ q = 0 ∨ q = 1 := by
  intro idxs
  induction idxs with
  | nil =>
    intro s cum ps pnls fin _ h
    simp only [btLoop, Option.some.injEq, Prod.mk.injEq] at h
    obtain ⟨h1, -, -⟩ := h
    subst h1
    simp
  | cons i rest ih =>
    intro s cum ps pnls fin hs h
    simp only [btLoop] at h
    split at h
    · exact absurd h (by simp)
    · rename_i s' p hu
      split at h
      · exact absurd h (by simp)
      · rename_i ps1 pnls1 fin1 hb
        simp only [Option.some.injEq, Prod.mk.injEq] at h
        obtain ⟨h1, -, -⟩ := h
        subst h1
        obtain ⟨hinv, hp⟩ := update_inv hs hu
        intro q hq
        rcases List.mem_cons.1 hq with hq | hq
        · subst hq; rw [hp]; exact pos_of_Inv hinv
        · exact ih s' _ ps1 pnls1 fin1 hinv hb q hq

/-! Helper lemmas about the window boundary indices. -/

theorem filter_boundary_eq (stride : ℕ) (n : ℕ) :
    (List.range n).filter (fun i => decide ((i + 1) % stride = 0)) =
      (List.range (n / stride)).map (fun k => stride * (k + 1) - 1) := by
  induction n with
  | zero => simp
  | succ n ih =>
    rw [List.range_succ, List.filter_append, ih]
    by_cases hd : stride ∣ n + 1
    · have hmod : (n + 1) % stride = 0 := Nat.mod_eq_zero_of_dvd hd
      have h1 : (n + 1) / stride = n / stride + 1 := by
        rw [Nat.succ_div, if_pos hd]
      have h2 : stride * ((n + 1) / stride) = n + 1 := Nat.mul_div_cancel' hd
      rw [h1] at h2
      rw [h1, List.range_succ, List.map_append]
      congr 1
      simp [hmod]
      omega
    · have hmod : (n + 1) % stride ≠ 0 := fun hm => hd (Nat.dvd_of_mod_eq_zero hm)
      have h1 : (n + 1) / stride = n / stride := by
        rw [Nat.succ_div, if_neg hd]
        omega
      rw [h1]
      simp [hmod]

theorem specBoundaries_eq (stride pos : ℕ) :
    specBoundaries stride pos = barIndices stride pos :=
  filter_boundary_eq stride (pos + 1)

theorem barIndices_getLast (stride pos : ℕ) :
    (barIndices stride pos).getLast? =
      if (pos + 1) / stride = 0 then none
      else some (stride * ((pos + 1) / stride) - 1) := by
  rcases Nat.eq_zero_or_pos ((pos + 1) / stride) with h | h
  · simp [barIndices, h]
  · obtain ⟨m, hm⟩ : ∃ m, (pos + 1) / stride = m + 1 :=
      ⟨(pos + 1) / stride - 1, by omega⟩
    simp [barIndices, hm, List.range_succ, List.getLast?_concat]

theorem specAllIndices_eq (stride pos : ℕ) (hs : 1 ≤ stride) :
    specAllIndices stride pos = allBarIndices stride pos := by
  have hb := specBoundaries_eq stride pos
  by_cases hmod : (pos + 1) % stride = 0
  · have hdvd : stride ∣ pos + 1 := Nat.dvd_of_mod_eq_zero hmod
    have hc : 0 < (pos + 1) / stride :=
      Nat.div_pos (Nat.le_of_dvd (by omega) hdvd) (by omega)
    have h2 : stride * ((pos + 1) / stride) = pos + 1 := Nat.mul_div_cancel' hdvd
    have hlast : (barIndices stride pos).getLast? = some pos := by
      rw [barIndices_getLast, if_neg (by omega)]
      congr 1
      omega
    simp [specAllIndices, allBarIndices, hb, hlast, hmod]
  · have hlast : (barIndices stride pos).getLast? ≠ some pos := by
      rw [barIndices_getLast]
      by_cases hc : (pos + 1) / stride = 0
      · simp [hc]
      · rw [if_neg hc]
        intro hcon
        simp only [Option.some.injEq] at hcon
        obtain ⟨c, hceq⟩ : ∃ c, (pos + 1) / stride = c := ⟨_, rfl⟩
        rw [hceq] at hcon hc
        have hdvd : stride ∣ pos + 1 := ⟨c, by
          have h4 : 0 < stride * c := Nat.mul_pos (by omega) (by omega)
          omega⟩
        exact hmod (Nat.mod_eq_zero_of_dvd hdvd)
    simp [specAllIndices, allBarIndices, hb, hlast, hmod]

/-! Concrete evaluations, shared by witnesses and counterexamples.  The
rational arithmetic of the standard library is irreducible, so these are
proved by simp and norm_num rather than by decide. -/

theorem backtest_eval_B : backtest_day cPrices3 cModelB = some cReportB := by
  norm_num [backtest_day, btLoop, update, TSState.init, npArgmax, npMax, max_def,
    List.findIdx_cons, TREND_POSITION, cModelB, cVec95, cVec92, cPrices3, cReportB,
    numTrades, List.range_succ, List.cons_ne_nil, Option.some_ne_none]

theorem backtest_eval_C : backtest_day cPrices4 cModelC = some cReportC := by
  norm_num [backtest_day, btLoop, update, TSState.init, npArgmax, npMax, max_def,
    List.findIdx_cons, TREND_POSITION, cModelC, cPrices4, cReportC,
    numTrades, List.range_succ, List.cons_ne_nil, Option.some_ne_none]

theorem update_eval_single :
    update (TSState.init (9/10)) [19/20] =
      some ({ entry_threshold := 9/10, position := 1,
              current_trend := some 0 }, 1) := by
  norm_num [update, TSState.init, npArgmax, npMax, max_def, List.findIdx_cons,
    TREND_POSITION, List.cons_ne_nil, Option.some_ne_none]

/-! The claims. -/

/-- C1: a single `TradingSystem.update` step commits `argmax(p)` as the new
class and sets the position via the fixed mapping (classes 0,1,2 to Long = +1,
class 3 to Flat = 0, classes 4,5,6 to Short = -1) exactly when the maximum
probability reaches the entry threshold and the argmax differs from the
committed class; in every other case both the position and the committed class
are unchanged; the step returns the resulting position. -/
theorem update_transition_iff (s : TSState) (probs : List ℚ)
    (h7 : probs.length = 7) :
    (s.entry_threshold ≤ npMax probs ∧ some (npArgmax probs) ≠ s.current_trend →
      ∃ p : ℤ, TREND_POSITION (npArgmax probs) = some p ∧
        p = (if npArgmax probs ≤ 2 then 1
             else if npArgmax probs = 3 then 0 else -1) ∧
        update s probs =
          some ({ s with current_trend := some (npArgmax probs),
                         position := p }, p)) ∧
    (¬ (s.entry_threshold ≤ npMax probs ∧
          some (npArgmax probs) ≠ s.current_trend) →
      update s probs = some (s, s.position)) := by
  have hne : probs ≠ [] := by
    intro hcon
    rw [hcon] at h7
    simp at h7
  have ha : npArgmax probs < 7 := h7 ▸ npArgmax_lt_length probs hne
  constructor
  · intro hf
    refine ⟨_, TREND_POSITION_eq_of_lt ha, rfl, ?_⟩
    unfold update
    rw [if_neg hne, if_pos hf, TREND_POSITION_eq_of_lt ha]
  · intro hf
    unfold update
    rw [if_neg hne, if_neg hf]

/-- Witness for C1: the length-7 vector with 0.95 at class 0 fires from the
initial state. -/
theorem update_transition_iff_witness :
    ∃ p : ℤ, TREND_POSITION (npArgmax cVec95) = some p ∧
      p = (if npArgmax cVec95 ≤ 2 then 1
           else if npArgmax cVec95 = 3 then 0 else -1) ∧
      update (TSState.init (9/10)) cVec95 =
        some ({ TSState.init (9/10) with
                  current_trend := some (npArgmax cVec95), position := p }, p) :=
  (update_transition_iff (TSState.init (9/10)) cVec95 (by decide)).1
    (by constructor
        · norm_num [TSState.init, npMax, cVec95, max_def]
        · simp [TSState.init])

/-- C2 counterexample: the hysteresis scenario 0.95@0, 0.95@0, 0.92@4 yields
the positions Long, Long, Short but the reported trade count 1, not 2. -/
theorem backtest_hysteresis_counterexample :
    (backtest_day cPrices3 cModelB).map (fun r => (r.positions, r.num_trades)) =
        some ([1, 1, -1], 1) ∧
    (backtest_day cPrices3 cModelB).map (fun r => (r.positions, r.num_trades)) ≠
        some ([1, 1, -1], 2) := by
  rw [backtest_eval_B]
  constructor
  · simp [cReportB]
  · simp [cReportB]

/-- C2 amended: from the initial state, the probability sequence 0.95@0,
0.95@0, 0.92@4 at threshold 0.90 produces the position sequence Long, Long,
Short with a reported trade count of 1: `np.diff` only sees changes between
recorded positions, so the initial flat-to-long entry is not counted. -/
theorem backtest_hysteresis_trace :
    backtest_day cPrices3 cModelB = some cReportB :=
  backtest_eval_B

/-- C3: the final pnl is the sum over step indices of the position decided at
the step times the close change to the next step, with no accrual at the last
position of the day; with prices 100,101,99,99 driven to positions 1,1,-1,-1
the final pnl is exactly -1. -/
theorem pnl_accumulation :
    (∀ (prices : List ℚ) (model : ℕ → List ℚ) (r : Report),
      backtest_day prices model = some r →
      r.positions.length = prices.length ∧
      r.final_pnl =
        (List.zipWith (specStepPnl prices) r.positions
          (List.range prices.length)).sum) ∧
    (backtest_day cPrices4 cModelC).map Report.positions =
        some [1, 1, -1, -1] ∧
    (backtest_day cPrices4 cModelC).map Report.final_pnl = some (-1) := by
  refine ⟨?_, by rw [backtest_eval_C]; simp [cReportC], by rw [backtest_eval_C]; simp [cReportC]⟩
  intro prices model r h
  unfold backtest_day at h
  split at h
  · exact absurd h (by simp)
  · rename_i ps pnls fin hb
    simp only [Option.some.injEq] at h
    subst h
    obtain ⟨hlen, hsum⟩ :=
      btLoop_pnl prices model (List.range prices.length) _ _ ps pnls fin hb
    constructor
    · simpa using hlen
    · simpa using hsum

/-- Witness for C3 at the pnl determinism scenario. -/
theorem pnl_accumulation_witness :
    cReportC.positions.length = cPrices4.length ∧
    cReportC.final_pnl =
      (List.zipWith (specStepPnl cPrices4) cReportC.positions
        (List.range cPrices4.length)).sum :=
  pnl_accumulation.1 cPrices4 cModelC cReportC backtest_eval_C

/-- C4: for every valid global index the mapping returns day = idx /
windows_per_day and position = start_offset + (idx mod windows_per_day) *
stride, with day below the partition count and position below 23400, and it is
a pure function. -/
theorem index_mapping_bounds (p : DatasetParams) (idx : ℕ)
    (h1 : 1 ≤ p.stride) (h2 : p.start_index < 23400) (h3 : idx < datasetLen p) :
    getRowGroupAndOffset p idx =
      (idx / windows_per_day p,
        p.start_index + (idx % windows_per_day p) * p.stride) ∧
    (getRowGroupAndOffset p idx).1 < p.num_row_groups ∧
    (getRowGroupAndOffset p idx).2 < 23400 ∧
    getRowGroupAndOffset p idx = getRowGroupAndOffset p idx := by
  have hw : 0 < windows_per_day p := by
    by_contra hcon
    have h0 : windows_per_day p = 0 := by omega
    rw [datasetLen, h0, Nat.mul_zero] at h3
    omega
  refine ⟨rfl, ?_, ?_, rfl⟩
  · have h3' : idx < p.num_row_groups * windows_per_day p := h3
    exact (Nat.div_lt_iff_lt_mul hw).2 h3'
  · have hm : idx % windows_per_day p < windows_per_day p := Nat.mod_lt _ hw
    have h5 : windows_per_day p * p.stride ≤ bars_per_day - p.start_index :=
      Nat.div_mul_le_self _ _
    have h6 : (idx % windows_per_day p) * p.stride ≤
        (windows_per_day p - 1) * p.stride :=
      Nat.mul_le_mul_right _ (by omega)
    have h7 : (windows_per_day p - 1) * p.stride =
        windows_per_day p * p.stride - p.stride := by
      rw [Nat.sub_mul, Nat.one_mul]
    have hb : bars_per_day = 23400 := rfl
    show p.start_index + (idx % windows_per_day p) * p.stride < 23400
    omega

/-- Witness for C4 on a two-day dataset with stride 3 and offset 5. -/
theorem index_mapping_bounds_witness :
    10000 < datasetLen pTwo ∧
    (getRowGroupAndOffset pTwo 10000).1 < pTwo.num_row_groups ∧
    (getRowGroupAndOffset pTwo 10000).2 < 23400 := by
  have h := index_mapping_bounds pTwo 10000 (by decide) (by decide) (by decide)
  exact ⟨by decide, h.2.1, h.2.2.1⟩

/-- C5 counterexample: at global index 23400 = total_samples of a one-day
dataset, index resolution raises no error at all; it returns day 1, which lies
outside the valid range of day indices. -/
theorem index_out_of_range_counterexample :
    datasetLen pOne = 23400 ∧
    getRowGroupAndOffset pOne 23400 = (1, 0) ∧
    ¬ (getRowGroupAndOffset pOne 23400).1 < pOne.num_row_groups := by
  decide

/-- C5 amended: for every global index at or beyond total_samples the mapping
performs no bounds check and returns a day index at or beyond the partition
count; any failure would only arise downstream when the parquet reader is
asked for the nonexistent row group. -/
theorem index_out_of_range_behavior (p : DatasetParams) (idx : ℕ)
    (h0 : 0 < windows_per_day p) (h3 : datasetLen p ≤ idx) :
    p.num_row_groups ≤ (getRowGroupAndOffset p idx).1 := by
  have h3' : p.num_row_groups * windows_per_day p ≤ idx := h3
  exact (Nat.le_div_iff_mul_le h0).2 h3'

/-- Witness for the amended C5 at the one-day dataset. -/
theorem index_out_of_range_behavior_witness :
    pOne.num_row_groups ≤ (getRowGroupAndOffset pOne 23400).1 :=
  index_out_of_range_behavior pOne 23400 (by decide) (by decide)

/-- C6: dataset construction succeeds exactly when the archive's total row
count equals partition_count * 23400, and the per-read index mapping never
consults the row count again: it is unchanged under any change of the stored
row count. -/
theorem size_mismatch_check :
    (∀ num_row_groups num_rows window_size stride start_index : ℕ,
      (mkTradingDataset num_row_groups num_rows window_size stride
          start_index).isSome ↔
        num_rows = num_row_groups * 23400) ∧
    (∀ num_row_groups window_size stride start_index nr1 nr2 idx,
      getRowGroupAndOffset
          ⟨num_row_groups, window_size, stride, start_index, nr1⟩ idx =
        getRowGroupAndOffset
          ⟨num_row_groups, window_size, stride, start_index, nr2⟩ idx) := by
  constructor
  · intro nrg nr ws st si
    unfold mkTradingDataset bars_per_day
    by_cases h : nr = nrg * 23400
    · simp [h]
    · simp [h]
  · intro _ _ _ _ _ _ _
    rfl

/-- C7: the 1m window is the spec's collect-boundaries, synthetic-tail,
last-60, right-align algorithm at stride 60, the 5m window the identical
algorithm at stride 300 with 78 slots, and at position 0 exactly one row of
each buffer - the last - is filled from the data at index 0. -/
theorem window_boundary_algorithm (hi lo cl : ℕ → ℚ) (pos : ℕ) :
    features_1m hi lo cl pos = specWindow 60 60 hi lo cl pos ∧
    features_5m hi lo cl pos = specWindow 300 78 hi lo cl pos ∧
    features_1m hi lo cl 0 =
      List.replicate 59 (0, 0, 0) ++ [(hi 0, lo 0, cl 0)] ∧
    features_5m hi lo cl 0 =
      List.replicate 77 (0, 0, 0) ++ [(hi 0, lo 0, cl 0)] := by
  refine ⟨?_, ?_, ?_, ?_⟩
  · unfold features_1m specWindow
    rw [specAllIndices_eq 60 pos (by norm_num)]
  · unfold features_5m specWindow
    rw [specAllIndices_eq 300 pos (by norm_num)]
  · rfl
  · rfl

/-- C8 counterexample: a malformed probability vector of length 1 is processed
without any error: update commits class 0 and returns position 1. -/
theorem update_length_counterexample :
    ([(19 : ℚ)/20].length ≠ 7) ∧
    update (TSState.init (9/10)) [19/20] =
      some ({ entry_threshold := 9/10, position := 1,
              current_trend := some 0 }, 1) :=
  ⟨by decide, update_eval_single⟩

/-- C8 amended: update performs no length validation at all: every nonempty
probability vector whose argmax is one of the seven mapped classes is
processed successfully by the usual rule, whatever its length. -/
theorem update_no_length_check (s : TSState) (probs : List ℚ)
    (hne : probs ≠ []) (ha : npArgmax probs < 7) :
    ∃ out, update s probs = some out := by
  unfold update
  rw [if_neg hne]
  by_cases hf : s.entry_threshold ≤ npMax probs ∧
      some (npArgmax probs) ≠ s.current_trend
  · rw [if_pos hf, TREND_POSITION_eq_of_lt ha]
    exact ⟨_, rfl⟩
  · rw [if_neg hf]
    exact ⟨_, rfl⟩

/-- Witness for the amended C8 at the length-1 vector. -/
theorem update_no_length_check_witness :
    ∃ out, update (TSState.init (9/10)) [19/20] = some out :=
  update_no_length_check (TSState.init (9/10)) [19/20] (by simp)
    (by norm_num [npArgmax, npMax, List.findIdx_cons])

/-- C9: iterating the sampler without shuffling yields exactly the identity
sequence 0, 1, ..., num_row_groups * windows_per_day - 1. -/
theorem sampler_identity (num_row_groups wpd : ℕ) :
    rowGroupSamplerNoShuffle num_row_groups wpd =
      List.range (num_row_groups * wpd) := by
  unfold rowGroupSamplerNoShuffle rowGroupSamplerIter
  induction num_row_groups with
  | zero => simp
  | succ m ih =>
    rw [List.range_succ, List.flatMap_append, ih, Nat.succ_mul, List.range_add]
    simp

/-- C10: the simulator starts flat with nothing committed, every successful
update preserves the invariant that a committed class maps to the current
position under TREND_POSITION, and every position in a day's report is one of
-1, 0, 1. -/
theorem position_invariant :
    (∀ t : ℚ, (TSState.init t).position = 0 ∧
      (TSState.init t).current_trend = none ∧ Inv (TSState.init t)) ∧
    (∀ (s : TSState) (probs : List ℚ) (s' : TSState) (p : ℤ),
      Inv s → update s probs = some (s', p) →
      Inv s' ∧ p = s'.position ∧ (p = -1 ∨ p = 0 ∨ p = 1)) ∧
    (∀ (prices : List ℚ) (model : ℕ → List ℚ) (r : Report),
      backtest_day prices model = some r →
      ∀ q ∈ r.positions, q = -1 ∨ q = 0 ∨ q = 1) := by
  refine ⟨?_, ?_, ?_⟩
  · intro t
    exact ⟨rfl, rfl, Or.inl ⟨rfl, rfl⟩⟩
  · intro s probs s' p hs h
    obtain ⟨hinv, hp⟩ := update_inv hs h
    refine ⟨hinv, hp, ?_⟩
    rw [hp]
    exact pos_of_Inv hinv
  · intro prices model r h
    unfold backtest_day at h
    split at h
    · exact absurd h (by simp)
    · rename_i ps pnls fin hb
      simp only [Option.some.injEq] at h
      subst h
      intro q hq
      exact btLoop_mem prices model (List.range prices.length) _ _ ps pnls fin
        (Or.inl ⟨rfl, rfl⟩) hb q (by simpa using hq)

/-- Witness for C10 on the hysteresis scenario report. -/
theorem position_invariant_witness :
    (1 : ℤ) = -1 ∨ (1 : ℤ) = 0 ∨ (1 : ℤ) = 1 :=
  position_invariant.2.2 cPrices3 cModelB cReportB backtest_eval_B 1 (by decide)

end Trading
